import Mathlib

/-!
Shallow embedding of the law-caching server (a periodic fetch → normalize →
store pipeline over a SQLite table, with one HTTP read endpoint).

The embedding follows the canonical source file: the `laws` table is declared
with `law_type TEXT UNIQUE`, writes go through
`INSERT ... ON CONFLICT(law_type) DO UPDATE`, reads go through
`SELECT content FROM laws WHERE law_type = ? ORDER BY last_updated DESC LIMIT 1`.
External collaborators (SQLite, cheerio, the `he` entity decoder, axios with
the axios-retry middleware) are modelled at the interface level described by
the specification; everything the repository's own code does is translated
directly.
-/

/-- One row of the `laws` table: `(law_type, content, last_updated)`.
The auto-increment `id` column plays no role in any query of the program and
is omitted; `last_updated` (`DATETIME DEFAULT CURRENT_TIMESTAMP`) is modelled
as a natural-number timestamp. -/
structure LawRecord where
  law_type : String
  content : String
  last_updated : Nat
deriving Repr, DecidableEq

/-- The `laws` table, as the ordered list of its rows. -/
abbrev LawsDb := List LawRecord

/-- Well-formedness invariant enforced by the `law_type TEXT UNIQUE` column
constraint of the canonical schema: no two rows share a `law_type`. -/
def dbWf (db : LawsDb) : Prop := (db.map LawRecord.law_type).Nodup

/-- The write statement
`INSERT INTO laws (law_type, content, last_updated) VALUES (?, ?, CURRENT_TIMESTAMP)
 ON CONFLICT(law_type) DO UPDATE SET content = excluded.content, last_updated = CURRENT_TIMESTAMP`:
if a row with the given `law_type` exists (under the UNIQUE constraint there
is at most one) its content and timestamp are overwritten in place, otherwise
a fresh row is appended. -/
def upsertLaw (db : LawsDb) (t c : String) (now : Nat) : LawsDb :=
  match db with
  | [] => [⟨t, c, now⟩]
  | r :: rest =>
    if r.law_type = t then ⟨t, c, now⟩ :: rest
    else r :: upsertLaw rest t c now

/-- The `ORDER BY last_updated DESC LIMIT 1` part of the read query: the first
row carrying the maximal timestamp among the given rows. -/
def maxByTimestamp : List LawRecord → Option LawRecord
  | [] => none
  | r :: rest =>
    match maxByTimestamp rest with
    | none => some r
    | some best => if r.last_updated < best.last_updated then some best else some r

/-- The read query
`SELECT content FROM laws WHERE law_type = ? ORDER BY last_updated DESC LIMIT 1`. -/
def getLatest (db : LawsDb) (t : String) : Option String :=
  (maxByTimestamp (db.filter (fun r => r.law_type == t))).map LawRecord.content

/-- Body of an HTTP response of the endpoint: either `res.send(content)` or
`res.json(...)` carrying the object with a single `error` field. -/
inductive ResponseBody where
  | raw (s : String)
  | jsonError (message : String)
deriving Repr, DecidableEq

/-- An HTTP response: status code plus body. `res.send` leaves the default
status 200; `res.status(404).json(...)` sets 404. -/
structure HttpResponse where
  status : Nat
  body : ResponseBody
deriving Repr, DecidableEq

/-- The handler of `GET /laws/:lawType`: runs the read query; on a row answers
200 with the stored content, otherwise 404 with the literal error object. -/
def handleGetLaw (db : LawsDb) (lawType : String) : HttpResponse :=
  match getLatest db lawType with
  | some content => ⟨200, ResponseBody.raw content⟩
  | none => ⟨404, ResponseBody.jsonError "Lei não encontrada"⟩

/-- Folds a sequence of upsert operations `(type, content, timestamp)` over
the store, in order. -/
def applyUpserts (ops : List (String × String × Nat)) (db : LawsDb) : LawsDb :=
  match ops with
  | [] => db
  | op :: rest => applyUpserts rest (upsertLaw db op.1 op.2.1 op.2.2)

/-- A node of the document tree produced by `cheerio.load` (the external HTML
parser, a DOM query/removal collaborator): either a text node, or an element
with a tag name, an attribute list and child nodes. -/
inductive HtmlNode where
  | text (s : String)
  | element (tag : String) (attrs : List (String × String)) (children : List HtmlNode)

/-- The tag names removed by the canonical normalizer:
`$('img, script, style, link').remove()`. -/
def removedTags : List String := ["img", "script", "style", "link"]

mutual

/-- The effect of `$(selector).remove()` on one node: an element whose tag is
in the removal list is dropped together with its whole subtree (cheerio's
`.remove()` detaches the matched element); any other node is kept with its
children cleaned recursively. -/
def removeTagsNode (bad : List String) : HtmlNode → Option HtmlNode
  | HtmlNode.text s => some (HtmlNode.text s)
  | HtmlNode.element tag attrs children =>
    if tag ∈ bad then none
    else some (HtmlNode.element tag attrs (removeTagsList bad children))

/-- The effect of `$(selector).remove()` on a list of sibling nodes. -/
def removeTagsList (bad : List String) : List HtmlNode → List HtmlNode
  | [] => []
  | n :: ns =>
    match removeTagsNode bad n with
    | some n2 => n2 :: removeTagsList bad ns
    | none => removeTagsList bad ns

end

mutual

/-- The effect of `$('a').removeAttr('href')` on one node: every anchor
element (at any depth) loses its `href` attribute; everything else is kept. -/
def removeHrefNode : HtmlNode → HtmlNode
  | HtmlNode.text s => HtmlNode.text s
  | HtmlNode.element tag attrs children =>
    HtmlNode.element tag
      (if tag = "a" then attrs.filter (fun p => p.fst != "href") else attrs)
      (removeHrefList children)

/-- The effect of `$('a').removeAttr('href')` on a list of sibling nodes. -/
def removeHrefList : List HtmlNode → List HtmlNode
  | [] => []
  | n :: ns => removeHrefNode n :: removeHrefList ns

end

/-- Serialization of an attribute list. -/
def serializeAttrs : List (String × String) → String
  | [] => ""
  | (k, v) :: rest => " " ++ k ++ "=\"" ++ v ++ "\"" ++ serializeAttrs rest

mutual

/-- Serialization of one node back to markup text (`$.html()`). -/
def serializeNode : HtmlNode → String
  | HtmlNode.text s => s
  | HtmlNode.element tag attrs children =>
    "<" ++ tag ++ serializeAttrs attrs ++ ">" ++ serializeList children ++ "</" ++ tag ++ ">"

/-- Serialization of a list of sibling nodes back to markup text. -/
def serializeList : List HtmlNode → String
  | [] => ""
  | n :: ns => serializeNode n ++ serializeList ns

end

mutual

/-- Whether a node is, or contains, an element with the given tag. -/
def nodeHasTag (t : String) : HtmlNode → Bool
  | HtmlNode.text _ => false
  | HtmlNode.element tag _ children => tag == t || listHasTag t children

/-- Whether some node of the list is, or contains, an element with the given
tag. -/
def listHasTag (t : String) : List HtmlNode → Bool
  | [] => false
  | n :: ns => nodeHasTag t n || listHasTag t ns

end

/-- Whether the first character list is a prefix of the second (auxiliary of
the entity matcher, recursing on the pattern first). -/
def charsPrefixOf (p l : List Char) : Bool :=
  match p with
  | [] => true
  | c :: ps =>
    match l with
    | [] => false
    | x :: xs => c == x && charsPrefixOf ps xs

/-- Modelled from the spec: the named HTML character entities decoded by the
external `he.decode` collaborator ("decodes HTML character entities (numeric
and named) in the serialized text into their literal characters"), as a
representative table containing the entities the specification names. -/
def entityTable : List (String × Char) :=
  [("amp", '&'), ("ccedil", 'ç'), ("lt", '<'), ("gt", '>'),
   ("quot", '"'), ("atilde", 'ã'), ("aacute", 'á'), ("eacute", 'é')]

/-- Tries the entity table in order against the text following a `&`: on the
first entry whose `name;` is a prefix, yields the literal character and the
number of characters consumed. -/
def matchEntity (table : List (String × Char)) (l : List Char) : Option (Char × Nat) :=
  match table with
  | [] => none
  | (name, ch) :: rest =>
    if charsPrefixOf (name.data ++ [';']) l then some (ch, name.data.length + 1)
    else matchEntity rest l

/-- Modelled from the spec: the external `he.decode` collaborator, scanning
the text left to right and replacing each `&name;` occurrence of a known
named entity by its literal character; a `&` that starts no known entity is
kept as is. -/
def decodeEntities : List Char → List Char
  | [] => []
  | c :: rest =>
    if c = '&' then
      match matchEntity entityTable rest with
      | some (ch, k) => ch :: decodeEntities (rest.drop k)
      | none => '&' :: decodeEntities rest
    else c :: decodeEntities rest
termination_by l => l.length
decreasing_by
  all_goals simp only [List.length_cons, List.length_drop]
  all_goals omega

/-- String-level entity decoding (`he.decode`). -/
def heDecode (s : String) : String := String.mk (decodeEntities s.data)

/-- The canonical `parseHTML`, starting from the document tree produced by
`cheerio.load`: `$('img, script, style, link').remove()`, then
`$('a').removeAttr('href')`, then `he.decode($.html())`. -/
def parseHTML (doc : List HtmlNode) : String :=
  heDecode (serializeList (removeHrefList (removeTagsList removedTags doc)))

/-- An axios request error, as far as the retry condition inspects it:
whether `axiosRetry.isNetworkOrIdempotentRequestError` holds of it, and its
`code` field. -/
structure AxiosError where
  isNetworkOrIdempotentRequestError : Bool
  code : String
deriving Repr, DecidableEq

/-- Outcome of one attempt of `axios.get`: either the response data, already
byte-decoded by `iconv.decode(data, 'windows-1252')` and parsed by
`cheerio.load` into a document tree (both external collaborators), or an
error. -/
inductive AttemptResult where
  | ok (doc : List HtmlNode)
  | err (e : AxiosError)

/-- The `retries: 3` field of the `axiosRetry` configuration. -/
def axiosRetryRetries : Nat := 3

/-- The `retryDelay` field of the `axiosRetry` configuration:
`retryCount * 2000` milliseconds, i.e. the n-th retry waits n × 2 seconds. -/
def retryDelayMs (retryCount : Nat) : Nat := retryCount * 2000

/-- The `retryCondition` field of the `axiosRetry` configuration:
`axiosRetry.isNetworkOrIdempotentRequestError(error) || error.code === 'ECONNRESET'`. -/
def retryCondition (e : AxiosError) : Bool :=
  e.isNetworkOrIdempotentRequestError || e.code == "ECONNRESET"

/-- Trace of one `axios.get` call under the axios-retry middleware: the final
result (the parsed document on success), the number of attempts actually
issued, and the list of waits (in milliseconds) inserted before each retry. -/
structure RetryTrace where
  result : Option (List HtmlNode)
  attemptsMade : Nat
  delays : List Nat

/-- One step of the axios-retry middleware. `attempts` is the environment:
the outcome the network would give to the n-th attempt (0 = the initial
request). After a failed attempt, if retries remain and the retry condition
holds, the middleware waits `retryDelay(retryCount)` and reissues the
request; otherwise the error becomes terminal. -/
def retryFrom (attempts : Nat → AttemptResult) : Nat → Nat → RetryTrace
  | attemptIdx, 0 =>
    match attempts attemptIdx with
    | AttemptResult.ok doc => ⟨some doc, attemptIdx + 1, []⟩
    | AttemptResult.err _ => ⟨none, attemptIdx + 1, []⟩
  | attemptIdx, retriesLeft + 1 =>
    match attempts attemptIdx with
    | AttemptResult.ok doc => ⟨some doc, attemptIdx + 1, []⟩
    | AttemptResult.err e =>
      if retryCondition e then
        let t := retryFrom attempts (attemptIdx + 1) retriesLeft
        ⟨t.result, t.attemptsMade, retryDelayMs (attemptIdx + 1) :: t.delays⟩
      else ⟨none, attemptIdx + 1, []⟩

/-- A full `axios.get` call under the configured middleware: the initial
attempt plus up to `retries: 3` retries. -/
def axiosGet (attempts : Nat → AttemptResult) : RetryTrace :=
  retryFrom attempts 0 axiosRetryRetries

/-- The canonical `fetchAndParseData`: on success of the (retried) request it
returns `parseHTML` of the decoded document; if the request fails after all
retries, the `catch` block logs and returns `null` (here `none`). -/
def fetchAndParseData (attempts : Nat → AttemptResult) : Option String :=
  match (axiosGet attempts).result with
  | some doc => some (parseHTML doc)
  | none => none

/-- The canonical `updateLaw`, with the result of `fetchAndParseData(url)`
abstracted into the oracle `fetch : url → Option content`: when the fetched
content is truthy (present and non-empty) it is upserted with the current
timestamp; otherwise (null, or the empty string, both falsy in the source's
`if (content)`) nothing is written. -/
def updateLaw (fetch : String → Option String) (db : LawsDb)
    (lawType url : String) (now : Nat) : LawsDb :=
  match fetch url with
  | some content => if content = "" then db else upsertLaw db lawType content now
  | none => db

/-- One entry of the static catalog `lawsToUpdate`. -/
structure CatalogEntry where
  type : String
  url : String
deriving Repr, DecidableEq

/-- The static catalog of the eleven tracked laws. -/
def lawsToUpdate : List CatalogEntry :=
  [⟨"codigo-civil", "https://www.planalto.gov.br/ccivil_03/Leis/2002/L10406compilada.htm"⟩,
   ⟨"processo-civil", "https://www.planalto.gov.br/ccivil_03/decreto-lei/1937-1946/del1608.htm"⟩,
   ⟨"eleitoral", "https://www.planalto.gov.br/ccivil_03/Leis/L4737compilado.htm"⟩,
   ⟨"codigo-comercial", "https://www.planalto.gov.br/ccivil_03/leis/lim/LIM556compilado.htm"⟩,
   ⟨"codigo-penal", "https://www.planalto.gov.br/ccivil_03/decreto-lei/del2848compilado.htm"⟩,
   ⟨"constituicao-federal", "https://www.planalto.gov.br/ccivil_03/constituicao/ConstituicaoCompilado.htm"⟩,
   ⟨"codigo-tributario", "https://www.planalto.gov.br/ccivil_03/leis/L5172Compilado.htm"⟩,
   ⟨"leis-trabalho", "https://www.planalto.gov.br/ccivil_03/decreto-lei/Del5452compilado.htm"⟩,
   ⟨"defesa-consumidor", "https://www.planalto.gov.br/ccivil_03/leis/l8078compilado.htm"⟩,
   ⟨"advocacia", "https://www.planalto.gov.br/ccivil_03/leis/l8906.htm"⟩,
   ⟨"estatuto-deficiencia", "https://www.planalto.gov.br/ccivil_03/_ato2015-2018/2015/lei/l13146.htm"⟩]

/-- The body of `scheduleLawUpdates` over an arbitrary catalog suffix: for
each entry, sequentially (`await`), fetch and store via `updateLaw`, then
pause. The clock `now` advances by one tick per processed entry (real time
advances by at least the 2-second pause; only the relative order of
timestamps matters to the store). -/
def runCycle (fetch : String → Option String) :
    List CatalogEntry → LawsDb → Nat → LawsDb
  | [], db, _ => db
  | e :: rest, db, now => runCycle fetch rest (updateLaw fetch db e.type e.url now) (now + 1)

/-- The canonical `scheduleLawUpdates`: one full refresh cycle over the
static catalog. -/
def scheduleLawUpdates (fetch : String → Option String) (db : LawsDb) (now : Nat) : LawsDb :=
  runCycle fetch lawsToUpdate db now

/-- The recurrence interval of `setInterval(scheduleLawUpdates, 24 * 60 * 60 * 1000)`,
in milliseconds. -/
def intervalMs : Nat := 24 * 60 * 60 * 1000

/-- Start time of the k-th refresh cycle: `scheduleLawUpdates()` is called
once at startup (k = 0) and then the interval timer fires every `intervalMs`
milliseconds, each tick calling `scheduleLawUpdates` unconditionally — the
source keeps no running flag and attaches nothing to the promise returned by
an in-progress cycle, so a tick never inspects whether a previous cycle is
still running. -/
def cycleStart (k : Nat) : Nat := k * intervalMs

/-- Whether the k-th refresh cycle is still in progress at time `t`, given
the wall-clock duration of each cycle. The duration is an environment
parameter: it is the sum of the cycle's fetch times, retry waits, database
write times and inter-entry pauses, none of which the scheduling code
bounds or inspects. -/
def cycleActive (duration : Nat → Nat) (k t : Nat) : Prop :=
  cycleStart k ≤ t ∧ t < cycleStart k + duration k

theorem upsert_filter_self (db : LawsDb) (T c : String) (now : Nat) (hwf : dbWf db) :
    (upsertLaw db T c now).filter (fun r => r.law_type == T) = [⟨T, c, now⟩] := by
  induction db with
  | nil => simp [upsertLaw]
  | cons r rest ih =>
    rw [dbWf, List.map_cons, List.nodup_cons] at hwf
    by_cases h : r.law_type = T
    · rw [upsertLaw, if_pos h, List.filter_cons]
      have hnil : rest.filter (fun r => r.law_type == T) = [] := by
        rw [List.filter_eq_nil_iff]
        intro x hx
        simp only [beq_iff_eq]
        intro hxT
        apply hwf.1
        rw [h, ← hxT]
        exact List.mem_map_of_mem LawRecord.law_type hx
      simp [hnil]
    · rw [upsertLaw, if_neg h, List.filter_cons]
      have hb : (r.law_type == T) = false := by simp [h]
      rw [hb]
      simpa using ih hwf.2

theorem upsert_filter_other (db : LawsDb) (t T c : String) (now : Nat) (hne : t ≠ T) :
    (upsertLaw db t c now).filter (fun r => r.law_type == T)
      = db.filter (fun r => r.law_type == T) := by
  induction db with
  | nil => simp [upsertLaw, List.filter_cons, hne]
  | cons r rest ih =>
    by_cases h : r.law_type = t
    · rw [upsertLaw, if_pos h, List.filter_cons, List.filter_cons]
      simp [h, hne]
    · rw [upsertLaw, if_neg h, List.filter_cons, List.filter_cons]
      by_cases hrT : r.law_type = T <;> simp [hrT, ih]

theorem mem_types_upsert (db : LawsDb) (t c : String) (now : Nat) (x : String)
    (hx : x ∈ (upsertLaw db t c now).map LawRecord.law_type) :
    x = t ∨ x ∈ db.map LawRecord.law_type := by
  induction db with
  | nil => simp [upsertLaw] at hx; exact Or.inl hx
  | cons r rest ih =>
    by_cases h : r.law_type = t
    · rw [upsertLaw, if_pos h] at hx
      rcases List.mem_cons.mp hx with h1 | h1
      · exact Or.inl h1
      · exact Or.inr (List.mem_cons_of_mem _ h1)
    · rw [upsertLaw, if_neg h] at hx
      rcases List.mem_cons.mp hx with h1 | h1
      · exact Or.inr (by simp [h1])
      · rcases ih h1 with h2 | h2
        · exact Or.inl h2
        · exact Or.inr (List.mem_cons_of_mem _ h2)

theorem dbWf_upsert (db : LawsDb) (t c : String) (now : Nat) (hwf : dbWf db) :
    dbWf (upsertLaw db t c now) := by
  induction db with
  | nil => simp [upsertLaw, dbWf]
  | cons r rest ih =>
    rw [dbWf, List.map_cons, List.nodup_cons] at hwf
    by_cases h : r.law_type = t
    · rw [upsertLaw, if_pos h, dbWf, List.map_cons, List.nodup_cons]
      exact ⟨h ▸ hwf.1, hwf.2⟩
    · rw [upsertLaw, if_neg h, dbWf, List.map_cons, List.nodup_cons]
      refine ⟨fun hmem => ?_, ih hwf.2⟩
      rcases mem_types_upsert rest t c now r.law_type hmem with h1 | h1
      · exact h h1
      · exact hwf.1 h1

theorem maxByTimestamp_mem (l : List LawRecord) (r : LawRecord)
    (h : maxByTimestamp l = some r) : r ∈ l := by
  induction l with
  | nil => simp [maxByTimestamp] at h
  | cons a rest ih =>
    rw [maxByTimestamp] at h
    cases hm : maxByTimestamp rest with
    | none => rw [hm] at h; simp at h; simp [h]
    | some best =>
      rw [hm] at h
      by_cases hlt : a.last_updated < best.last_updated
      · simp only [if_pos hlt] at h
        have := ih (hm.trans h)
        exact List.mem_cons_of_mem _ this
      · simp only [if_neg hlt] at h
        simp at h; simp [h]

theorem getLatest_of_filter_singleton (db : LawsDb) (T : String) (r : LawRecord)
    (h : db.filter (fun x => x.law_type == T) = [r]) :
    getLatest db T = some r.content := by
  rw [getLatest, h]; rfl

/-- C1. Freshness: after `Upsert(T, C1)` followed by `Upsert(T, C2)` on any
well-formed store (the UNIQUE-key invariant of the canonical schema), the
read query `GetLatest(T)` returns `C2`, the content of the most recent
successful write for that key. -/
theorem freshness_upsert_then_getLatest (db : LawsDb) (T c1 c2 : String)
    (t1 t2 : Nat) (hwf : dbWf db) :
    getLatest (upsertLaw (upsertLaw db T c1 t1) T c2 t2) T = some c2 := by
  exact getLatest_of_filter_singleton _ T ⟨T, c2, t2⟩
    (upsert_filter_self _ T c2 t2 (dbWf_upsert db T c1 t1 hwf))

/-- Witness for C1 at a concrete store and key. -/
theorem freshness_upsert_then_getLatest_witness :
    getLatest (upsertLaw (upsertLaw [] "codigo-civil" "v1" 0) "codigo-civil" "v2" 1)
      "codigo-civil" = some "v2" :=
  freshness_upsert_then_getLatest [] "codigo-civil" "v1" "v2" 0 1 (by simp [dbWf])

/-- C2. Idempotent upsert and the uniqueness invariant: on a store satisfying
the UNIQUE-key invariant, any sequence of upserts preserves the invariant (at
most one row per document type, writes overwrite in place), and upserting
`(T, c)` twice leaves exactly one current row for `T`, with content `c`. -/
theorem upsert_unique_invariant (db : LawsDb) (ops : List (String × String × Nat))
    (T c : String) (t1 t2 : Nat) (hwf : dbWf db) :
    dbWf (applyUpserts ops db) ∧
    (upsertLaw (upsertLaw db T c t1) T c t2).filter (fun r => r.law_type == T)
      = [⟨T, c, t2⟩] := by
  constructor
  · induction ops generalizing db with
    | nil => exact hwf
    | cons op rest ih =>
      rw [applyUpserts]
      exact ih _ (dbWf_upsert db op.1 op.2.1 op.2.2 hwf)
  · exact upsert_filter_self _ T c t2 (dbWf_upsert db T c t1 hwf)

/-- Witness for C2 at a concrete store, operation sequence and key. -/
theorem upsert_unique_invariant_witness :
    dbWf (applyUpserts [("advocacia", "x", 0), ("eleitoral", "y", 1)] []) ∧
    (upsertLaw (upsertLaw [] "advocacia" "x" 0) "advocacia" "x" 1).filter
      (fun r => r.law_type == "advocacia") = [⟨"advocacia", "x", 1⟩] :=
  upsert_unique_invariant [] [("advocacia", "x", 0), ("eleitoral", "y", 1)]
    "advocacia" "x" 0 1 (by simp [dbWf])

/-- C3. Not-found contract: for a document type for which the store holds no
record, the endpoint answers HTTP 404 with the JSON error object whose
`error` field is the literal `Lei não encontrada`; for a type for which the
read query finds content, it answers 200 with exactly that stored content. -/
theorem notFound_contract (db : LawsDb) (t : String) :
    ((∀ r ∈ db, r.law_type ≠ t) →
      handleGetLaw db t = ⟨404, ResponseBody.jsonError "Lei não encontrada"⟩) ∧
    (∀ c, getLatest db t = some c → handleGetLaw db t = ⟨200, ResponseBody.raw c⟩) := by
  constructor
  · intro h
    have hnil : db.filter (fun r => r.law_type == t) = [] := by
      rw [List.filter_eq_nil_iff]
      intro x hx
      simp only [beq_iff_eq]
      exact h x hx
    rw [handleGetLaw, getLatest, hnil]
    rfl
  · intro c hc
    rw [handleGetLaw, hc]

/-- Witness for C3: a never-seen type answers 404 with the literal error
body; a stored type answers 200 with the stored content. -/
theorem notFound_contract_witness :
    handleGetLaw [] "codigo-civil" = ⟨404, ResponseBody.jsonError "Lei não encontrada"⟩ ∧
    handleGetLaw [⟨"advocacia", "corpo", 5⟩] "advocacia" = ⟨200, ResponseBody.raw "corpo"⟩ :=
  ⟨(notFound_contract [] "codigo-civil").1 (by decide),
   (notFound_contract [⟨"advocacia", "corpo", 5⟩] "advocacia").2 "corpo" (by decide)⟩

theorem updateLaw_none (fetch : String → Option String) (db : LawsDb)
    (lawType url : String) (now : Nat) (h : fetch url = none) :
    updateLaw fetch db lawType url now = db := by
  rw [updateLaw, h]

theorem updateLaw_some (fetch : String → Option String) (db : LawsDb)
    (lawType url c : String) (now : Nat) (h : fetch url = some c) (hc : c ≠ "") :
    updateLaw fetch db lawType url now = upsertLaw db lawType c now := by
  rw [updateLaw, h]
  simp [hc]

theorem dbWf_updateLaw (fetch : String → Option String) (db : LawsDb)
    (lawType url : String) (now : Nat) (hwf : dbWf db) :
    dbWf (updateLaw fetch db lawType url now) := by
  rw [updateLaw]
  cases fetch url with
  | none => exact hwf
  | some c =>
    by_cases hc : c = ""
    · simp [hc, hwf]
    · simp only [if_neg hc]
      exact dbWf_upsert db lawType c now hwf

theorem updateLaw_filter_other (fetch : String → Option String) (db : LawsDb)
    (lawType url T : String) (now : Nat) (hne : lawType ≠ T) :
    (updateLaw fetch db lawType url now).filter (fun r => r.law_type == T)
      = db.filter (fun r => r.law_type == T) := by
  rw [updateLaw]
  cases fetch url with
  | none => rfl
  | some c =>
    by_cases hc : c = ""
    · simp [hc]
    · simp only [if_neg hc]
      exact upsert_filter_other db lawType T c now hne

theorem runCycle_filter_frame (fetch : String → Option String)
    (cat : List CatalogEntry) (db : LawsDb) (now : Nat) (T : String)
    (h : ∀ e ∈ cat, e.type = T → fetch e.url = none) :
    (runCycle fetch cat db now).filter (fun r => r.law_type == T)
      = db.filter (fun r => r.law_type == T) := by
  induction cat generalizing db now with
  | nil => rfl
  | cons a rest ih =>
    rw [runCycle]
    rw [ih _ _ fun e he => h e (List.mem_cons_of_mem a he)]
    by_cases ha : a.type = T
    · rw [updateLaw_none fetch db a.type a.url now (h a (List.mem_cons_self a rest) ha)]
    · exact updateLaw_filter_other fetch db a.type a.url T now ha

theorem dbWf_runCycle (fetch : String → Option String) (cat : List CatalogEntry)
    (db : LawsDb) (now : Nat) (hwf : dbWf db) :
    dbWf (runCycle fetch cat db now) := by
  induction cat generalizing db now with
  | nil => exact hwf
  | cons a rest ih =>
    rw [runCycle]
    exact ih _ _ (dbWf_updateLaw fetch db a.type a.url now hwf)

/-- C7. Cycle resilience: a refresh cycle in which the entries of one
document type (and possibly several) permanently fail to fetch still, for
every catalog entry whose fetch succeeds with non-empty content, upserts that
content and leaves it readable at the end of the cycle; the rows of the
failing type are left exactly as they were — the failing entry is skipped,
not fatal, and the cycle runs to completion over the whole catalog. -/
theorem cycle_resilience (fetch : String → Option String) (cat : List CatalogEntry)
    (db : LawsDb) (now : Nat) (badT : String)
    (hcat : (cat.map CatalogEntry.type).Nodup) (hwf : dbWf db)
    (hbad : ∀ e ∈ cat, e.type = badT → fetch e.url = none) :
    (∀ e ∈ cat, ∀ c, fetch e.url = some c → c ≠ "" →
      getLatest (runCycle fetch cat db now) e.type = some c) ∧
    (runCycle fetch cat db now).filter (fun r => r.law_type == badT)
      = db.filter (fun r => r.law_type == badT) := by
  refine ⟨?_, runCycle_filter_frame fetch cat db now badT hbad⟩
  clear hbad
  induction cat generalizing db now with
  | nil => intro e he; simp at he
  | cons a rest ih =>
    rw [List.map_cons, List.nodup_cons] at hcat
    intro e he c hc hcne
    rw [runCycle]
    rcases List.mem_cons.mp he with rfl | he2
    · have hdb1 : updateLaw fetch db e.type e.url now = upsertLaw db e.type c now :=
        updateLaw_some fetch db e.type e.url c now hc hcne
      rw [hdb1]
      have hframe : (runCycle fetch rest (upsertLaw db e.type c now) (now + 1)).filter
          (fun r => r.law_type == e.type)
          = (upsertLaw db e.type c now).filter (fun r => r.law_type == e.type) := by
        apply runCycle_filter_frame
        intro x hx hxt
        exact absurd (hxt ▸ List.mem_map_of_mem CatalogEntry.type hx) hcat.1
      rw [getLatest, hframe, upsert_filter_self db e.type c now hwf]
      rfl
    · exact ih _ _ hcat.2 (dbWf_updateLaw fetch db a.type a.url now hwf) e he2 c hc hcne

/-- Witness for C7 over the program's own catalog: the `advocacia` entry's
fetch permanently fails, every other entry succeeds, and after the cycle
every successful entry is readable while the failing one wrote nothing. -/
theorem cycle_resilience_witness :
    (∀ e ∈ lawsToUpdate, ∀ c,
      (if e.url = "https://www.planalto.gov.br/ccivil_03/leis/l8906.htm"
        then none else some "conteudo") = some c → c ≠ "" →
      getLatest (runCycle
        (fun url => if url = "https://www.planalto.gov.br/ccivil_03/leis/l8906.htm"
          then none else some "conteudo") lawsToUpdate [] 0) e.type = some c) ∧
    (runCycle
      (fun url => if url = "https://www.planalto.gov.br/ccivil_03/leis/l8906.htm"
        then none else some "conteudo") lawsToUpdate [] 0).filter
        (fun r => r.law_type == "advocacia")
      = ([] : LawsDb).filter (fun r => r.law_type == "advocacia") :=
  cycle_resilience
    (fun url => if url = "https://www.planalto.gov.br/ccivil_03/leis/l8906.htm"
      then none else some "conteudo")
    lawsToUpdate [] 0 "advocacia" (by decide) (by simp [dbWf]) (by decide)

/-- C9. Frame effect of fetch exhaustion: if every catalog entry of a given
document type yields no content (its fetch exhausted all retries), then the
refresh cycle performs no write for that type — the rows previously stored
for it, content and timestamp alike, are exactly unchanged — and the cycle
simply moves past a failing entry to the rest of the catalog. -/
theorem fetch_exhaustion_keeps_stale (fetch : String → Option String)
    (cat : List CatalogEntry) (db : LawsDb) (now : Nat) (T : String)
    (h : ∀ e ∈ cat, e.type = T → fetch e.url = none) :
    (runCycle fetch cat db now).filter (fun r => r.law_type == T)
      = db.filter (fun r => r.law_type == T) ∧
    (∀ bad rest2, fetch bad.url = none →
      runCycle fetch (bad :: rest2) db now = runCycle fetch rest2 db (now + 1)) := by
  refine ⟨runCycle_filter_frame fetch cat db now T h, ?_⟩
  intro bad rest2 hb
  rw [runCycle, updateLaw_none fetch db bad.type bad.url now hb]

/-- Witness for C9: with the `codigo-penal` entry failing, a cycle over the
program's catalog leaves the previously stored `codigo-penal` row (content
and timestamp) untouched. -/
theorem fetch_exhaustion_keeps_stale_witness :
    (runCycle
      (fun url => if url = "https://www.planalto.gov.br/ccivil_03/decreto-lei/del2848compilado.htm"
        then none else some "conteudo")
      lawsToUpdate [⟨"codigo-penal", "versao antiga", 7⟩] 100).filter
        (fun r => r.law_type == "codigo-penal")
      = ([⟨"codigo-penal", "versao antiga", 7⟩] : LawsDb).filter
          (fun r => r.law_type == "codigo-penal") ∧
    (∀ bad rest2,
      (if bad.url = "https://www.planalto.gov.br/ccivil_03/decreto-lei/del2848compilado.htm"
        then none else some "conteudo") = none →
      runCycle
        (fun url => if url = "https://www.planalto.gov.br/ccivil_03/decreto-lei/del2848compilado.htm"
          then none else some "conteudo") (bad :: rest2)
        [⟨"codigo-penal", "versao antiga", 7⟩] 100
      = runCycle
          (fun url => if url = "https://www.planalto.gov.br/ccivil_03/decreto-lei/del2848compilado.htm"
            then none else some "conteudo") rest2
          [⟨"codigo-penal", "versao antiga", 7⟩] 101) :=
  fetch_exhaustion_keeps_stale
    (fun url => if url = "https://www.planalto.gov.br/ccivil_03/decreto-lei/del2848compilado.htm"
      then none else some "conteudo")
    lawsToUpdate [⟨"codigo-penal", "versao antiga", 7⟩] 100 "codigo-penal" (by decide)

theorem mem_upsert (db : LawsDb) (t c : String) (now : Nat) (r : LawRecord)
    (h : r ∈ upsertLaw db t c now) : r ∈ db ∨ r = ⟨t, c, now⟩ := by
  induction db with
  | nil => simp [upsertLaw] at h; exact Or.inr h
  | cons a rest ih =>
    by_cases ha : a.law_type = t
    · rw [upsertLaw, if_pos ha] at h
      rcases List.mem_cons.mp h with h1 | h1
      · exact Or.inr h1
      · exact Or.inl (List.mem_cons_of_mem _ h1)
    · rw [upsertLaw, if_neg ha] at h
      rcases List.mem_cons.mp h with h1 | h1
      · exact Or.inl (by simp [h1])
      · rcases ih h1 with h2 | h2
        · exact Or.inl (List.mem_cons_of_mem _ h2)
        · exact Or.inr h2

theorem updateLaw_empty_content (fetch : String → Option String) (db : LawsDb)
    (lawType url : String) (now : Nat) (h : fetch url = some "") :
    updateLaw fetch db lawType url now = db := by
  rw [updateLaw, h]
  show (if "" = "" then db else upsertLaw db lawType "" now) = db
  rw [if_pos rfl]

theorem updateLaw_content_ne (fetch : String → Option String) (db : LawsDb)
    (lawType url : String) (now : Nat) (h : ∀ r ∈ db, r.content ≠ "") :
    ∀ r ∈ updateLaw fetch db lawType url now, r.content ≠ "" := by
  intro r hr
  cases hf : fetch url with
  | none =>
    rw [updateLaw_none fetch db lawType url now hf] at hr
    exact h r hr
  | some c =>
    by_cases hc : c = ""
    · rw [updateLaw_empty_content fetch db lawType url now (hc ▸ hf)] at hr
      exact h r hr
    · rw [updateLaw_some fetch db lawType url c now hf hc] at hr
      rcases mem_upsert db lawType c now r hr with h1 | h1
      · exact h r h1
      · rw [h1]; exact hc

theorem runCycle_content_ne (fetch : String → Option String)
    (cat : List CatalogEntry) (db : LawsDb) (now : Nat)
    (h : ∀ r ∈ db, r.content ≠ "") :
    ∀ r ∈ runCycle fetch cat db now, r.content ≠ "" := by
  induction cat generalizing db now with
  | nil => exact h
  | cons a rest ih =>
    rw [runCycle]
    exact ih _ _ (updateLaw_content_ne fetch db a.type a.url now h)

theorem getLatest_mem (db : LawsDb) (t c : String) (h : getLatest db t = some c) :
    ∃ r ∈ db, r.content = c := by
  rw [getLatest] at h
  cases hm : maxByTimestamp (db.filter (fun r => r.law_type == t)) with
  | none =>
    rw [hm] at h
    exact Option.noConfusion h
  | some r =>
    rw [hm] at h
    have h2 : some r.content = some c := h
    refine ⟨r, ?_, by injection h2⟩
    exact (List.mem_filter.mp (maxByTimestamp_mem _ r hm)).1

/-- C10. Non-empty content invariant: `updateLaw` writes only truthy content,
so a refresh cycle starting from a store whose records all have non-empty
content yields a store whose records all have non-empty content, and the
read endpoint never answers 200 with an empty body over such a store. -/
theorem stored_content_nonempty (fetch : String → Option String)
    (cat : List CatalogEntry) (db : LawsDb) (now : Nat) (T : String)
    (h : ∀ r ∈ db, r.content ≠ "") :
    (∀ r ∈ runCycle fetch cat db now, r.content ≠ "") ∧
    (∀ body, handleGetLaw (runCycle fetch cat db now) T = ⟨200, ResponseBody.raw body⟩ →
      body ≠ "") := by
  refine ⟨runCycle_content_ne fetch cat db now h, ?_⟩
  intro body hresp
  cases hg : getLatest (runCycle fetch cat db now) T with
  | none =>
    rw [handleGetLaw, hg] at hresp
    have h2 : (404 : Nat) = 200 := congrArg HttpResponse.status hresp
    exact absurd h2 (by decide)
  | some c =>
    rw [handleGetLaw, hg] at hresp
    have hcb0 : ResponseBody.raw c = ResponseBody.raw body :=
      congrArg HttpResponse.body hresp
    have hcb : c = body := by injection hcb0
    obtain ⟨r, hrmem, hrc⟩ := getLatest_mem _ T c hg
    have hne := runCycle_content_ne fetch cat db now h r hrmem
    rw [hrc, hcb] at hne
    exact hne

/-- Witness for C10: a full cycle over the program's catalog from the empty
store, every upstream returning content that normalizes non-empty, yields
only non-empty records and no empty 200 body. -/
theorem stored_content_nonempty_witness :
    (∀ r ∈ runCycle (fun _ => some "conteudo") lawsToUpdate [] 0, r.content ≠ "") ∧
    (∀ body, handleGetLaw (runCycle (fun _ => some "conteudo") lawsToUpdate [] 0)
        "advocacia" = ⟨200, ResponseBody.raw body⟩ → body ≠ "") :=
  stored_content_nonempty (fun _ => some "conteudo") lawsToUpdate [] 0 "advocacia"
    (by simp)

theorem retryFrom_zero_err (attempts : Nat → AttemptResult) (i : Nat) (e : AxiosError)
    (h : attempts i = AttemptResult.err e) :
    retryFrom attempts i 0 = ⟨none, i + 1, []⟩ := by
  rw [retryFrom, h]

theorem retryFrom_succ_err (attempts : Nat → AttemptResult) (i rl : Nat) (e : AxiosError)
    (h : attempts i = AttemptResult.err e) (hc : retryCondition e = true) :
    retryFrom attempts i (rl + 1) =
      ⟨(retryFrom attempts (i + 1) rl).result,
       (retryFrom attempts (i + 1) rl).attemptsMade,
       retryDelayMs (i + 1) :: (retryFrom attempts (i + 1) rl).delays⟩ := by
  rw [retryFrom, h]
  show (if retryCondition e = true then
      let t := retryFrom attempts (i + 1) rl
      RetryTrace.mk t.result t.attemptsMade (retryDelayMs (i + 1) :: t.delays)
    else ⟨none, i + 1, []⟩) = _
  rw [if_pos hc]

/-- C6. Retry policy: whenever every network attempt fails with an error
matching the configured retry condition (network-class errors and
`ECONNRESET`), the configured middleware issues exactly 4 attempts (the
initial request plus `retries: 3`), waiting `n × 2` seconds before the n-th
retry (2s, 4s, 6s — linearly increasing); the exhausted fetch is terminal:
`fetchAndParseData` returns `none` (the source's `null`), which `updateLaw`
treats as no update available, leaving the store untouched rather than
crashing. -/
theorem retry_policy_exhaustion (attempts : Nat → AttemptResult)
    (h : ∀ n, ∃ e, attempts n = AttemptResult.err e ∧ retryCondition e = true) :
    (axiosGet attempts).attemptsMade = 4 ∧
    (axiosGet attempts).delays = [retryDelayMs 1, retryDelayMs 2, retryDelayMs 3] ∧
    (axiosGet attempts).delays = [2000, 4000, 6000] ∧
    fetchAndParseData attempts = none ∧
    (∀ db lawType url now,
      updateLaw (fun _ => fetchAndParseData attempts) db lawType url now = db) := by
  obtain ⟨e0, h0, hc0⟩ := h 0
  obtain ⟨e1, h1, hc1⟩ := h 1
  obtain ⟨e2, h2, hc2⟩ := h 2
  obtain ⟨e3, h3, hc3⟩ := h 3
  have hrun : axiosGet attempts = ⟨none, 4, [retryDelayMs 1, retryDelayMs 2, retryDelayMs 3]⟩ := by
    rw [axiosGet, axiosRetryRetries]
    rw [retryFrom_succ_err attempts 0 2 e0 h0 hc0]
    rw [retryFrom_succ_err attempts 1 1 e1 h1 hc1]
    rw [retryFrom_succ_err attempts 2 0 e2 h2 hc2]
    rw [retryFrom_zero_err attempts 3 e3 h3]
  refine ⟨by rw [hrun], by rw [hrun], by rw [hrun]; rfl, ?_, ?_⟩
  · rw [fetchAndParseData, hrun]
  · intro db lawType url now
    rw [updateLaw, fetchAndParseData, hrun]

/-- Witness for C6: a network that resets the connection on every attempt. -/
theorem retry_policy_exhaustion_witness :
    (axiosGet (fun _ => AttemptResult.err ⟨true, "ECONNRESET"⟩)).attemptsMade = 4 ∧
    (axiosGet (fun _ => AttemptResult.err ⟨true, "ECONNRESET"⟩)).delays
      = [retryDelayMs 1, retryDelayMs 2, retryDelayMs 3] ∧
    (axiosGet (fun _ => AttemptResult.err ⟨true, "ECONNRESET"⟩)).delays
      = [2000, 4000, 6000] ∧
    fetchAndParseData (fun _ => AttemptResult.err ⟨true, "ECONNRESET"⟩) = none ∧
    (∀ db lawType url now,
      updateLaw (fun _ => fetchAndParseData (fun _ => AttemptResult.err ⟨true, "ECONNRESET"⟩))
        db lawType url now = db) :=
  retry_policy_exhaustion (fun _ => AttemptResult.err ⟨true, "ECONNRESET"⟩)
    (fun _ => ⟨⟨true, "ECONNRESET"⟩, rfl, rfl⟩)

/-- The claim that a timer tick firing while a cycle is in progress is a
no-op is refuted by the embedding of the source's scheduling: cycle starts
are unconditional (`cycleStart k = k * intervalMs` regardless of any earlier
cycle), so with a cycle duration exceeding the interval, cycles 0 and 1 are
both in progress at the moment the second one starts — the trigger started a
new cycle instead of skipping. -/
theorem scheduler_overlap_counterexample :
    cycleActive (fun _ => 2 * intervalMs) 0 intervalMs ∧
    cycleActive (fun _ => 2 * intervalMs) 1 intervalMs := by
  constructor
  · exact ⟨by simp [cycleStart], by simp [cycleStart, intervalMs]⟩
  · exact ⟨by simp [cycleStart], by simp [cycleStart, intervalMs]⟩

/-- C8 (amended). The scheduler has no re-entrancy guard: every 24-hour tick
starts a refresh cycle unconditionally at `k * intervalMs`. Two refresh
cycles never overlap exactly when every cycle's wall-clock duration stays
within the 24-hour interval — in that case each cycle finishes before the
next trigger fires, and any instant lies inside at most one cycle. -/
theorem scheduler_no_overlap_iff_cycles_fit (duration : Nat → Nat)
    (hshort : ∀ k, duration k ≤ intervalMs) :
    ∀ j k t, cycleActive duration j t → cycleActive duration k t → j = k := by
  intro j k t hj hk
  rcases Nat.lt_trichotomy j k with hlt | heq | hgt
  · exfalso
    have h1 : t < cycleStart j + duration j := hj.2
    have h2 : cycleStart k ≤ t := hk.1
    have h3 : cycleStart j + duration j ≤ cycleStart (j + 1) := by
      rw [cycleStart, cycleStart, Nat.succ_mul]
      exact Nat.add_le_add_left (hshort j) _
    have h4 : cycleStart (j + 1) ≤ cycleStart k := by
      rw [cycleStart, cycleStart]
      exact Nat.mul_le_mul_right _ hlt
    omega
  · exact heq
  · exfalso
    have h1 : t < cycleStart k + duration k := hk.2
    have h2 : cycleStart j ≤ t := hj.1
    have h3 : cycleStart k + duration k ≤ cycleStart (k + 1) := by
      rw [cycleStart, cycleStart, Nat.succ_mul]
      exact Nat.add_le_add_left (hshort k) _
    have h4 : cycleStart (k + 1) ≤ cycleStart j := by
      rw [cycleStart, cycleStart]
      exact Nat.mul_le_mul_right _ hgt
    omega

/-- Witness for the amended C8 at a concrete bounded duration. -/
theorem scheduler_no_overlap_iff_cycles_fit_witness : (0 : Nat) = 0 :=
  scheduler_no_overlap_iff_cycles_fit (fun _ => 1000)
    (fun k => by show (1000 : Nat) ≤ intervalMs; decide) 0 0 0
    ⟨by decide, by show (0 : Nat) < cycleStart 0 + 1000; decide⟩
    ⟨by decide, by show (0 : Nat) < cycleStart 0 + 1000; decide⟩

mutual

theorem removeTagsNode_clean (bad : List String) (t : String) (ht : t ∈ bad)
    (n : HtmlNode) :
    ∀ n2, removeTagsNode bad n = some n2 → nodeHasTag t n2 = false := by
  cases n with
  | text s =>
    intro n2 h
    rw [removeTagsNode] at h
    injection h with h2
    rw [← h2, nodeHasTag]
  | element tag attrs children =>
    intro n2 h
    rw [removeTagsNode] at h
    by_cases htag : tag ∈ bad
    · rw [if_pos htag] at h
      exact Option.noConfusion h
    · rw [if_neg htag] at h
      injection h with h2
      rw [← h2, nodeHasTag]
      have h3 := removeTagsList_clean bad t ht children
      have h4 : (tag == t) = false := by
        simp only [beq_eq_false_iff_ne]
        intro heq
        exact htag (heq ▸ ht)
      rw [h3, h4]
      rfl

theorem removeTagsList_clean (bad : List String) (t : String) (ht : t ∈ bad)
    (l : List HtmlNode) : listHasTag t (removeTagsList bad l) = false := by
  cases l with
  | nil => rfl
  | cons n ns =>
    rw [removeTagsList]
    cases hn : removeTagsNode bad n with
    | none =>
      show listHasTag t (removeTagsList bad ns) = false
      exact removeTagsList_clean bad t ht ns
    | some n2 =>
      show listHasTag t (n2 :: removeTagsList bad ns) = false
      rw [listHasTag, removeTagsNode_clean bad t ht n n2 hn,
        removeTagsList_clean bad t ht ns]
      rfl

end

mutual

theorem removeHrefNode_hasTag (t : String) (n : HtmlNode) :
    nodeHasTag t (removeHrefNode n) = nodeHasTag t n := by
  cases n with
  | text s => rfl
  | element tag attrs children =>
    rw [removeHrefNode, nodeHasTag, nodeHasTag, removeHrefList_hasTag t children]

theorem removeHrefList_hasTag (t : String) (l : List HtmlNode) :
    listHasTag t (removeHrefList l) = listHasTag t l := by
  cases l with
  | nil => rfl
  | cons n ns =>
    rw [removeHrefList, listHasTag, listHasTag, removeHrefNode_hasTag t n,
      removeHrefList_hasTag t ns]

end

theorem removeTagsList_append (bad : List String) (l1 l2 : List HtmlNode) :
    removeTagsList bad (l1 ++ l2) = removeTagsList bad l1 ++ removeTagsList bad l2 := by
  induction l1 with
  | nil => rfl
  | cons n ns ih =>
    rw [List.cons_append, removeTagsList, removeTagsList]
    cases hn : removeTagsNode bad n with
    | none =>
      show removeTagsList bad (ns ++ l2)
        = removeTagsList bad ns ++ removeTagsList bad l2
      exact ih
    | some n2 =>
      show n2 :: removeTagsList bad (ns ++ l2)
        = (n2 :: removeTagsList bad ns) ++ removeTagsList bad l2
      rw [List.cons_append, ih]

theorem removeHrefList_append (l1 l2 : List HtmlNode) :
    removeHrefList (l1 ++ l2) = removeHrefList l1 ++ removeHrefList l2 := by
  induction l1 with
  | nil => rfl
  | cons n ns ih =>
    rw [List.cons_append, removeHrefList, removeHrefList, ih, List.cons_append]

theorem decode_amp (b : List Char) :
    decodeEntities ('&' :: 'a' :: 'm' :: 'p' :: ';' :: b) = '&' :: decodeEntities b := by
  rw [decodeEntities, if_pos rfl]
  rfl

theorem decode_ccedil (b : List Char) :
    decodeEntities ('&' :: 'c' :: 'c' :: 'e' :: 'd' :: 'i' :: 'l' :: ';' :: b)
      = 'ç' :: decodeEntities b := by
  rw [decodeEntities, if_pos rfl]
  rfl

theorem decode_noamp_append (a l : List Char) (ha : ∀ x ∈ a, x ≠ '&') :
    decodeEntities (a ++ l) = a ++ decodeEntities l := by
  induction a with
  | nil => rfl
  | cons c a2 ih =>
    rw [List.cons_append, decodeEntities,
      if_neg (ha c (List.mem_cons_self c a2)), List.cons_append]
    rw [ih fun x hx => ha x (List.mem_cons_of_mem c hx)]

/-- C4. Sanitization: for any document whose parsed tree contains an anchor
element with a text child at the top level (surrounded by arbitrary markup,
which may contain image and script elements anywhere), the normalizer output
contains no image element and no script element at any depth; the anchor
element survives with its text content intact and its attribute list purged
of every `href` (no navigable target remains); and `parseHTML` is exactly
entity-decoding of the serialization of that cleaned tree. -/
theorem sanitization (pre post : List HtmlNode) (attrs : List (String × String))
    (s : String) :
    listHasTag "img" (removeHrefList (removeTagsList removedTags
      (pre ++ HtmlNode.element "a" attrs [HtmlNode.text s] :: post))) = false ∧
    listHasTag "script" (removeHrefList (removeTagsList removedTags
      (pre ++ HtmlNode.element "a" attrs [HtmlNode.text s] :: post))) = false ∧
    removeHrefList (removeTagsList removedTags
        (pre ++ HtmlNode.element "a" attrs [HtmlNode.text s] :: post))
      = removeHrefList (removeTagsList removedTags pre)
        ++ HtmlNode.element "a" (attrs.filter (fun p => p.fst != "href"))
            [HtmlNode.text s]
          :: removeHrefList (removeTagsList removedTags post) ∧
    (∀ v, ("href", v) ∉ attrs.filter (fun p => p.fst != "href")) ∧
    parseHTML (pre ++ HtmlNode.element "a" attrs [HtmlNode.text s] :: post)
      = heDecode (serializeList (removeHrefList (removeTagsList removedTags
          (pre ++ HtmlNode.element "a" attrs [HtmlNode.text s] :: post)))) := by
  refine ⟨?_, ?_, ?_, ?_, rfl⟩
  · rw [removeHrefList_hasTag,
      removeTagsList_clean removedTags "img" (by decide) _]
  · rw [removeHrefList_hasTag,
      removeTagsList_clean removedTags "script" (by decide) _]
  · rw [removeTagsList_append]
    have h1 : removeTagsList removedTags
        (HtmlNode.element "a" attrs [HtmlNode.text s] :: post)
        = HtmlNode.element "a" attrs [HtmlNode.text s]
          :: removeTagsList removedTags post := rfl
    rw [h1, removeHrefList_append]
    have h2 : removeHrefList (HtmlNode.element "a" attrs [HtmlNode.text s]
          :: removeTagsList removedTags post)
        = HtmlNode.element "a" (attrs.filter (fun p => p.fst != "href"))
            [HtmlNode.text s]
          :: removeHrefList (removeTagsList removedTags post) := rfl
    rw [h2]
  · intro v hv
    rcases List.mem_filter.mp hv with ⟨_, hv2⟩
    simp at hv2

/-- C5. Entity decoding at write time: for any fetched document whose
cleaned serialized markup contains the entity `&amp;` and later the entity
`&ccedil;` (the text before and between them free of further ampersands),
the content produced by `parseHTML` — the very string `updateLaw` hands to
the upsert statement at write time — carries the literal characters `&` and
`ç` in their place, and the write indeed stores exactly that string. -/
theorem entity_decoding_at_write (doc : List HtmlNode) (db : LawsDb)
    (T : String) (now : Nat) (a b c : List Char)
    (hser : (serializeList (removeHrefList (removeTagsList removedTags doc))).data
      = a ++ '&' :: 'a' :: 'm' :: 'p' :: ';' ::
          (b ++ '&' :: 'c' :: 'c' :: 'e' :: 'd' :: 'i' :: 'l' :: ';' :: c))
    (ha : ∀ x ∈ a, x ≠ '&') (hb : ∀ x ∈ b, x ≠ '&') :
    (parseHTML doc).data = a ++ '&' :: (b ++ 'ç' :: decodeEntities c) ∧
    '&' ∈ (parseHTML doc).data ∧
    'ç' ∈ (parseHTML doc).data ∧
    (∀ url, updateLaw (fun _ => some (parseHTML doc)) db T url now
      = upsertLaw db T (parseHTML doc) now) := by
  have hdata : (parseHTML doc).data = decodeEntities
      (serializeList (removeHrefList (removeTagsList removedTags doc))).data := rfl
  have hd2 : (parseHTML doc).data = a ++ '&' :: (b ++ 'ç' :: decodeEntities c) := by
    rw [hdata, hser, decode_noamp_append a _ ha, decode_amp,
      decode_noamp_append b _ hb, decode_ccedil]
  refine ⟨hd2, ?_, ?_, ?_⟩
  · rw [hd2]; simp
  · rw [hd2]; simp
  · intro url
    apply updateLaw_some
    · rfl
    · intro hemp
      have hnil : (parseHTML doc).data = [] := by rw [hemp]
      rw [hd2] at hnil
      simp at hnil

/-- Witness for C5 at a concrete fetched document containing both
entities. -/
theorem entity_decoding_at_write_witness :
    (parseHTML [HtmlNode.text "x&amp;y&ccedil;z"]).data
      = ['x'] ++ '&' :: (['y'] ++ 'ç' :: decodeEntities ['z']) ∧
    '&' ∈ (parseHTML [HtmlNode.text "x&amp;y&ccedil;z"]).data ∧
    'ç' ∈ (parseHTML [HtmlNode.text "x&amp;y&ccedil;z"]).data ∧
    (∀ url, updateLaw (fun _ => some (parseHTML [HtmlNode.text "x&amp;y&ccedil;z"]))
        [] "advocacia" url 0
      = upsertLaw [] "advocacia" (parseHTML [HtmlNode.text "x&amp;y&ccedil;z"]) 0) :=
  entity_decoding_at_write [HtmlNode.text "x&amp;y&ccedil;z"] [] "advocacia" 0
    ['x'] ['y'] ['z'] (by decide) (by decide) (by decide)
